import Mathlib

/-!
Verification of the md2pages static-site generator.

The development shallowly embeds the generator's core: gitignore-style
pattern translation (`config.py`), glob-based exclusion matching
(Python `fnmatch`), Markdown file discovery (`utils.py`), the Markdown
document transformer (`converter.py`) and the site orchestration
(`generator.py`).  Strings are modelled as `List Char`, filesystem
paths as lists of components, and all fallible collaborators (file
reads, template rendering, file writes, asset copies) as an explicit
environment of `Except`-returning functions.
-/

namespace MdToPages

abbrev Chars := List Char

/-- ASCII whitespace characters recognised by Python `str.strip()`:
space, tab, newline, vertical tab, form feed, carriage return. -/
def isPyWS (c : Char) : Bool :=
  c = ' ' || c = '\t' || c = '\n' || c = Char.ofNat 11 || c = Char.ofNat 12 || c = '\r'

/-- Python `str.strip()`: remove leading and trailing whitespace. -/
def pyStrip (cs : Chars) : Chars :=
  ((cs.dropWhile isPyWS).reverse.dropWhile isPyWS).reverse

/-- Python `str.rstrip('/')`: remove all trailing slash characters. -/
def dropTrailingSlashes (cs : Chars) : Chars :=
  (cs.reverse.dropWhile (fun c => c = '/')).reverse

/-! ## Shell-glob matching (Python `fnmatch`)

`fnmatch.translate` turns a pattern into a regex: `*` becomes `.*`
(matching any run of characters, `/` included), `?` matches one
character, `[...]` a character class (negated when it starts with `!`,
with `]` literal as a first member, and without closing bracket the
`[` is a literal).  We mirror this as a token list and a matcher. -/

inductive GlobTok where
  | star
  | anyChar
  | charClass (negated : Bool) (ranges : List (Char × Char))
  | lit (c : Char)
deriving DecidableEq

/-- Contents of a bracket expression, as inclusive character ranges:
`a-b` is a range, any other character stands for itself, and a `-`
that does not sit between two characters is literal. -/
def bracketRanges : Chars → List (Char × Char)
  | [] => []
  | c :: '-' :: d :: rest => (c, d) :: bracketRanges rest
  | c :: rest => (c, c) :: bracketRanges rest

/-- Split a bracket expression at its closing `]`, if it has one. -/
def parseBracketBody (qs : Chars) : Option (List (Char × Char) × Chars) :=
  if ']' ∈ qs then
    let j := qs.indexOf ']'
    some (bracketRanges (qs.take j), qs.drop (j + 1))
  else none

/-- Bracket parsing after an optional leading `!`: a `]` appearing
first is a literal member of the class. -/
def parseBracketFrom (neg : Bool) (qs : Chars) : Option (Bool × List (Char × Char) × Chars) :=
  match qs with
  | ']' :: t =>
    match parseBracketBody t with
    | some (rs, rest) => some (neg, (']', ']') :: rs, rest)
    | none => none
  | t =>
    match parseBracketBody t with
    | some (rs, rest) => some (neg, rs, rest)
    | none => none

/-- Parse the body of a `[...]` class (everything after the `[`). -/
def parseBracket (ps : Chars) : Option (Bool × List (Char × Char) × Chars) :=
  match ps with
  | '!' :: qs => parseBracketFrom true qs
  | qs => parseBracketFrom false qs

/-- Pattern translation, with fuel for termination; the fuel is always
at least the number of remaining pattern characters, and every step
consumes at least one character, so the `0` case is never reached from
`translateGlob`. -/
def translateGlobAux : Nat → Chars → List GlobTok
  | 0, _ => []
  | _, [] => []
  | fuel + 1, '*' :: ps => .star :: translateGlobAux fuel ps
  | fuel + 1, '?' :: ps => .anyChar :: translateGlobAux fuel ps
  | fuel + 1, '[' :: ps =>
    match parseBracket ps with
    | some (neg, rs, rest) => .charClass neg rs :: translateGlobAux fuel rest
    | none => .lit '[' :: translateGlobAux fuel ps
  | fuel + 1, c :: ps => .lit c :: translateGlobAux fuel ps

/-- Python `fnmatch.translate`, as a token list. -/
def translateGlob (pat : Chars) : List GlobTok := translateGlobAux pat.length pat

/-- Does a character belong to a list of inclusive ranges? -/
def inClass (rs : List (Char × Char)) (c : Char) : Bool :=
  rs.any (fun r => decide (r.1 ≤ c) && decide (c ≤ r.2))

/-- Match a translated pattern against a string.  `star` matches any
run of characters (including `/`), exactly like the `.*` produced by
`fnmatch.translate`. -/
def globMatch : List GlobTok → Chars → Bool
  | [], s => s.isEmpty
  | .star :: ts, s => s.tails.any (fun s2 => globMatch ts s2)
  | .anyChar :: ts, s =>
    match s with
    | [] => false
    | _ :: s2 => globMatch ts s2
  | .charClass neg rs :: ts, s =>
    match s with
    | [] => false
    | c :: s2 => (inClass rs c != neg) && globMatch ts s2
  | .lit a :: ts, s =>
    match s with
    | [] => false
    | c :: s2 => (a == c) && globMatch ts s2

/-- Python `fnmatch.fnmatch(name, pat)` on a POSIX system (where
`os.path.normcase` is the identity). -/
def fnmatchGlob (name : Chars) (pat : Chars) : Bool := globMatch (translateGlob pat) name

/-! ## Gitignore pattern translation (`config._load_gitignore_patterns`) -/

/-- The glob patterns contributed by one raw `.gitignore` line:
comments and negations contribute nothing, a leading `/` is stripped,
a trailing `/` becomes `/**`, and a bare name (no `/`, `*`, `?`, `[`)
is duplicated into the name itself and `name/**`. -/
def gitignoreCandidates (rawLine : Chars) : List Chars :=
  let l1 := pyStrip rawLine
  if l1 = [] then []
  else if l1.head? = some '#' then []
  else if l1.head? = some '!' then []
  else
    let l2 := if l1.head? = some '/' then l1.tail else l1
    if l2 = [] then []
    else
      let l3 :=
        if l2.getLast? = some '/' then dropTrailingSlashes l2 ++ ['/', '*', '*'] else l2
      if l3.contains '/' || l3.contains '*' || l3.contains '?' || l3.contains '[' then [l3]
      else [l3, l3 ++ ['/', '*', '*']]

/-- `config._load_gitignore_patterns`: fold over the file's lines,
appending each candidate pattern unless it is already present. -/
def load_gitignore_patterns (lines : List Chars) : List Chars :=
  lines.foldl
    (fun pats line =>
      (gitignoreCandidates line).foldl
        (fun acc cand => if cand ∈ acc then acc else acc ++ [cand]) pats)
    []

/-- `config._extend_unique`: extend a list with items, skipping items
already present, preserving order. -/
def extend_unique (target : List Chars) (items : List Chars) : List Chars :=
  items.foldl (fun t item => if item ∈ t then t else t ++ [item]) target

/-- The exclude-pattern list built by `load_config`/`_finalize_config`:
explicitly configured patterns first (deduplicated), then the
gitignore-derived patterns merged in without duplicating. -/
def mergedExcludePatterns (explicitExcludes : List Chars) (gitignoreLines : List Chars)
    (respect : Bool) : List Chars :=
  let base := extend_unique [] explicitExcludes
  if respect then extend_unique base (load_gitignore_patterns gitignoreLines) else base

example : load_gitignore_patterns [".venv".data] = [".venv".data, ".venv/**".data] := by decide

example : fnmatchGlob ".venv".data ".venv".data = true := by decide

example : fnmatchGlob ".venv/lib/foo.md".data ".venv/**".data = true := by decide

example : fnmatchGlob "name-other".data "name/**".data = false := by decide

example : mergedExcludePatterns ["drafts/**".data] ["drafts/".data] true = ["drafts/**".data] := by
  decide

/-! ## Document transformer (`converter.py`)

`extract_frontmatter` matches `re.match(r'^---\s*\n(.*?)\n---\s*\n', s, re.DOTALL)`.
We model the regex engine's backtracking exactly: the greedy `\s*\n`
tries the newlines inside the leading whitespace run from last to
first, and the lazy `(.*?)` grows the captured group one character at
a time until `\n---\s*\n` matches. -/

/-- Length of the maximal leading whitespace run (`\s*`). -/
def wsRunLen (cs : Chars) : Nat := (cs.takeWhile isPyWS).length

/-- Indices of `\n` inside the leading whitespace run, in greedy
(descending) order: the candidate end points of `\s*\n`. -/
def nlPositions (cs : Chars) : List Nat :=
  ((List.range (wsRunLen cs)).filter (fun i => cs.get? i = some '\n')).reverse

/-- The suffixes remaining after each way of matching `\s*\n` at the
head of `cs`, in the order the regex engine tries them. -/
def wsNlSplits (cs : Chars) : List Chars :=
  (nlPositions cs).map (fun i => cs.drop (i + 1))

/-- Lazy search for the closing `\n---\s*\n`: grow the group (`acc`)
until the closing delimiter matches; return (group, suffix after the
whole match). -/
def findClosingGo (acc : Chars) : Chars → Option (Chars × Chars)
  | [] => none
  | c :: rest =>
    if c = '\n' ∧ rest.take 3 = ['-', '-', '-'] ∧ wsNlSplits (rest.drop 3) ≠ [] then
      some (acc, (wsNlSplits (rest.drop 3)).headD [])
    else findClosingGo (acc ++ [c]) rest

/-- Try each candidate for the opening `\s*\n` in greedy order. -/
def firstClosing : List Chars → Option (Chars × Chars)
  | [] => none
  | q :: qs =>
    match findClosingGo [] q with
    | some r => some r
    | none => firstClosing qs

/-- The frontmatter regex match at the start of the text: returns the
captured group and the text after the match end, if any. -/
def frontmatterMatch (cs : Chars) : Option (Chars × Chars) :=
  if cs.take 3 = ['-', '-', '-'] then firstClosing (wsNlSplits (cs.drop 3)) else none

/-! The title line is found with
`re.search(r'^title:\s*["\']?(.+?)["\']?\s*$', fm, re.MULTILINE)`:
candidate starts are the line starts, `\s*` is greedy, the optional
quotes are greedy, the group `(.+?)` is lazy and must not cross a
newline, and `$` matches at end of string or before a newline. -/

/-- Is the character one of the two quote characters of the pattern? -/
def isQuoteChar (c : Char) : Bool := c = '"' || c = Char.ofNat 39

/-- Can `\s*$` match at the head of `cs`? -/
def endOfLineOK (cs : Chars) : Bool :=
  decide (cs.drop (wsRunLen cs) = []) || decide ('\n' ∈ cs.take (wsRunLen cs))

/-- Can `["\']?\s*$` match at the head of `cs`? -/
def tailOK (cs : Chars) : Bool :=
  match cs with
  | c :: rest => if isQuoteChar c then endOfLineOK rest || endOfLineOK cs else endOfLineOK cs
  | [] => endOfLineOK []

/-- Lazy group: grow the captured title one (non-newline) character at
a time until the tail of the pattern matches. -/
def tryContentGo (acc : Chars) : Chars → Option Chars
  | [] => none
  | c :: rest =>
    if c = '\n' then none
    else if tailOK rest then some (acc ++ [c])
    else tryContentGo (acc ++ [c]) rest

/-- Greedy optional opening quote: prefer consuming it, fall back to
not consuming it. -/
def tryQuote1 (rest2 : Chars) : Option Chars :=
  match rest2 with
  | c :: rest3 =>
    if isQuoteChar c then
      match tryContentGo [] rest3 with
      | some t => some t
      | none => tryContentGo [] rest2
    else tryContentGo [] rest2
  | [] => none

/-- Greedy `\s*` after `title:`: try dropping `k` whitespace
characters, from the maximal run length down to zero. -/
def titleWsLoop (rest : Chars) : Nat → Option Chars
  | 0 => tryQuote1 rest
  | k + 1 =>
    match tryQuote1 (rest.drop (k + 1)) with
    | some t => some t
    | none => titleWsLoop rest k

/-- Try the title pattern at one candidate (line-start) position. -/
def matchTitleAt (cs : Chars) : Option Chars :=
  if cs.take 6 = "title:".data then titleWsLoop (cs.drop 6) (wsRunLen (cs.drop 6))
  else none

/-- All line-start suffixes of the text, in position order (the
positions where `^` matches under `re.MULTILINE`). -/
def lineStartGo : Chars → List Chars
  | [] => []
  | '\n' :: rest => rest :: lineStartGo rest
  | _ :: rest => lineStartGo rest

/-- `re.search` over line starts; the group of the first match is
stripped (`title_match.group(1).strip()`). -/
def firstTitle : List Chars → Option Chars
  | [] => none
  | q :: qs =>
    match matchTitleAt q with
    | some t => some (pyStrip t)
    | none => firstTitle qs

/-- Search the frontmatter block for a `title:` line. -/
def titleSearch (fm : Chars) : Option Chars :=
  firstTitle (fm :: lineStartGo fm)

/-- `converter.extract_frontmatter`: returns the content with the
frontmatter removed and the extracted title, if any. -/
def extract_frontmatter (cs : Chars) : Chars × Option Chars :=
  match frontmatterMatch cs with
  | none => (cs, none)
  | some (fm, rest) => (rest, titleSearch fm)

/-! `convert_md_links_to_html` applies
`re.sub(r'\[([^\]]+)\]\(([^\)]+)\.md\)', r'[\1](\2.html)', s)`.
Since the two character classes exclude the closing delimiters, a
match at a position is: `[`, one or more non-`]` characters, `](`,
one or more non-`)` characters ending in `.md`, then `)`. -/

/-- Try to match the link regex at the head of the text; on success
return the link text, the target without its `.md` suffix, and the
rest of the input after the match. -/
def tryLink : Chars → Option (Chars × Chars × Chars)
  | [] => none
  | c :: t =>
    if c = '[' then
      let text := t.takeWhile (fun a => a ≠ ']')
      if text = [] then none
      else
        match t.dropWhile (fun a => a ≠ ']') with
        | d1 :: d2 :: r2 =>
          if d1 = ']' ∧ d2 = '(' then
            let run := r2.takeWhile (fun a => a ≠ ')')
            (match r2.dropWhile (fun a => a ≠ ')') with
             | d3 :: rest =>
               if d3 = ')' ∧ 4 ≤ run.length ∧ run.drop (run.length - 3) = ['.', 'm', 'd'] then
                 some (text, run.take (run.length - 3), rest)
               else none
             | [] => none)
          else none
        | _ => none
    else none

/-- The text emitted for one rewritten link. -/
def rewrittenLink (text target : Chars) : Chars :=
  '[' :: text ++ ']' :: '(' :: (target ++ ['.', 'h', 't', 'm', 'l', ')'])

/-- Left-to-right scan of `re.sub`, with fuel for termination; every
match consumes at least one character, so fuel equal to the input
length is always sufficient. -/
def convertLinksAux : Nat → Chars → Chars
  | 0, cs => cs
  | _, [] => []
  | fuel + 1, c :: rest =>
    match tryLink (c :: rest) with
    | some (text, target, after) => rewrittenLink text target ++ convertLinksAux fuel after
    | none => c :: convertLinksAux fuel rest

/-- `converter.convert_md_links_to_html`. -/
def convert_md_links_to_html (cs : Chars) : Chars := convertLinksAux cs.length cs

/-- `converter.convert_markdown`: extract the frontmatter, choose the
title (a non-empty frontmatter title, else the fallback — Python's
truthiness makes an empty title fall back too), rewrite `.md` links,
and hand the body to the Markdown library (an external collaborator,
passed in as a function). -/
def convert_markdown (mdToHtml : Chars → Chars) (md fallback : Chars) : Chars × Chars :=
  let r := extract_frontmatter md
  let title :=
    match r.2 with
    | some t => if t = [] then fallback else t
    | none => fallback
  (mdToHtml (convert_md_links_to_html r.1), title)

/-! ## Paths (`pathlib` behaviour used by the generator)

A path relative to the input root is a list of components. -/

abbrev RelPath := List String

/-- Index of the last `.` of a file name when it separates a non-empty
stem from a non-empty suffix (`pathlib`'s rule: the dot is neither the
first nor the last character of the name). -/
def lastDotIdx (name : Chars) : Option Nat :=
  if '.' ∈ name then
    let i := name.length - 1 - name.reverse.indexOf '.'
    if 0 < i ∧ i < name.length - 1 then some i else none
  else none

/-- `PurePath.stem`: the file name without its suffix. -/
def pyStem (name : Chars) : Chars :=
  match lastDotIdx name with
  | some i => name.take i
  | none => name

/-- `PurePath.with_suffix`: replace (or append) the suffix. -/
def withSuffix (name : Chars) (suf : Chars) : Chars := pyStem name ++ suf

/-- `relative_path.with_suffix('.html')` applied to the whole path. -/
def toHtmlPath (rel : RelPath) : RelPath :=
  match rel.getLast? with
  | some name => rel.dropLast ++ [String.mk (withSuffix name.data ['.', 'h', 't', 'm', 'l'])]
  | none => rel

/-- ASCII `str.lower()`. -/
def lowerChar (c : Char) : Char :=
  if 'A' ≤ c ∧ c ≤ 'Z' then Char.ofNat (c.toNat + 32) else c

/-- ASCII `str.lower()` on a whole string. -/
def lowerStr (s : String) : String := String.mk (s.data.map lowerChar)

/-- `html_path.name.lower() == "index.html"`. -/
def isIndexName (p : RelPath) : Bool :=
  match p.getLast? with
  | some name => lowerStr name = "index.html"
  | none => false

/-- The generator's index normalisation: a name equal to `index.html`
case-insensitively is replaced by lowercase `index.html`. -/
def normalizeIndexName (p : RelPath) : RelPath :=
  if isIndexName p then p.dropLast ++ ["index.html"] else p

/-- The output-relative path of a source document. -/
def outputRelPath (rel : RelPath) : RelPath := normalizeIndexName (toHtmlPath rel)

/-- `PurePath.as_posix()`: components joined with `/`. -/
def joinPosix : RelPath → Chars
  | [] => []
  | [s] => s.data
  | s :: rest => s.data ++ '/' :: joinPosix rest

/-- Is `f` inside directory `dir` (component-wise containment)? -/
def pathIsWithin (dir : RelPath) (f : RelPath) : Bool :=
  decide (f.take dir.length = dir)

/-! ## File discovery (`utils.find_markdown_files`) -/

/-- One exclusion test: `fnmatch.fnmatch(relative_str, pattern)` for
some pattern in the list, on the POSIX form of the relative path. -/
def matchesAnyPattern (rel : RelPath) (pats : List Chars) : Bool :=
  pats.any (fun pat => fnmatchGlob (joinPosix rel) pat)

/-- Does the final component match `rglob("*.md")`'s name pattern? -/
def hasMdName (rel : RelPath) : Bool :=
  match rel.getLast? with
  | some name => fnmatchGlob name.data "*.md".data
  | none => false

/-- `utils.find_markdown_files`: every entry under the input root
whose name matches `*.md` and whose relative POSIX path matches no
exclude pattern, in traversal order. -/
def find_markdown_files (files : List RelPath) (pats : List Chars) : List RelPath :=
  files.filter (fun f => hasMdName f && ! matchesAnyPattern f pats)

/-! ## Site orchestration (`generator.generate_site`)

The filesystem and the fallible collaborators are an explicit
environment; `generate_site` additionally returns the list of
performed write/copy effects. -/

structure PageInfo where
  title : Chars
  relative_path : Chars
deriving DecidableEq

structure SiteConfig where
  output_dir : Chars
  exclude : List Chars
  site_title : Chars
  base_url : Chars
  respect_gitignore : Bool
deriving DecidableEq

structure GenerationResult where
  success_count : Nat
  failure_count : Nat
  errors : List (Chars × Chars)
deriving DecidableEq

inductive WriteEvent where
  | page (path : RelPath) (content : Chars)
  | autoIndex (content : Chars)
  | staticAssets
  | imageAssets
deriving DecidableEq

structure Env where
  files : List RelPath
  rendererInit : Except Chars Unit
  readFile : RelPath → Except Chars Chars
  mdToHtml : Chars → Chars
  renderPage : Chars → Chars → Chars → Chars → Except Chars Chars
  renderIndex : List PageInfo → Chars → Chars → Except Chars Chars
  writeFile : RelPath → Chars → Except Chars Unit
  copyStatic : Except Chars Unit
  copyImages : Except Chars Unit

/-- `md_file.stem`, the fallback title. -/
def stemOf (rel : RelPath) : Chars :=
  match rel.getLast? with
  | some name => pyStem name.data
  | none => []

/-- The body of the per-document `try` block: read, compute the output
path, convert, render, write.  Returns the output path, the title and
the rendered page. -/
def processDoc (env : Env) (config : SiteConfig) (f : RelPath) :
    Except Chars (RelPath × Chars × Chars) := do
  let content ← env.readFile f
  let htmlPath := outputRelPath f
  let conv := convert_markdown env.mdToHtml content (stemOf f)
  let rendered ← env.renderPage conv.1 conv.2 config.site_title config.base_url
  let _ ← env.writeFile htmlPath rendered
  pure (htmlPath, conv.2, rendered)

structure GenState where
  success : Nat
  failure : Nat
  errors : List (Chars × Chars)
  pages : List PageInfo
  hasUserIndex : Bool
  events : List WriteEvent
deriving DecidableEq

def initState : GenState := ⟨0, 0, [], [], false, []⟩

/-- One iteration of the document loop: on success bump the success
tally, log the write, track a user-supplied index and collect the
page; on failure record `(documentPath, error)` and bump the failure
tally, then continue. -/
def stepDoc (env : Env) (config : SiteConfig) (st : GenState) (f : RelPath) : GenState :=
  match processDoc env config f with
  | .ok r =>
    { st with
      success := st.success + 1
      events := st.events ++ [.page r.1 r.2.2]
      hasUserIndex := st.hasUserIndex || isIndexName r.1
      pages := if isIndexName r.1 then st.pages else st.pages ++ [⟨r.2.1, joinPosix r.1⟩] }
  | .error e =>
    { st with
      failure := st.failure + 1
      errors := st.errors ++ [(joinPosix f, e)] }

/-- Code-point lexicographic `<` on strings, as Python compares them. -/
def charsLt : Chars → Chars → Bool
  | [], [] => false
  | [], _ :: _ => true
  | _ :: _, [] => false
  | a :: as, b :: bs => decide (a < b) || (a == b && charsLt as bs)

/-- `p` sorts no later than `q` (by output-relative path). -/
def pageLe (p q : PageInfo) : Bool := ! charsLt q.relative_path p.relative_path

/-- Stable insertion: `p` goes before the first entry it is `≤`. -/
def insertPage (p : PageInfo) : List PageInfo → List PageInfo
  | [] => [p]
  | q :: qs => if pageLe p q then p :: q :: qs else q :: insertPage p qs

/-- `pages.sort(key=lambda p: p.relative_path)`: a stable ascending
sort (any stable sort computes the same list Python's does). -/
def sortPages : List PageInfo → List PageInfo
  | [] => []
  | p :: ps => insertPage p (sortPages ps)

/-- The auto-index `try` block: render the index, write it to
`outputDir/index.html`. -/
def indexRun (env : Env) (config : SiteConfig) (pages : List PageInfo) : Except Chars Chars := do
  let html ← env.renderIndex pages config.site_title config.base_url
  let _ ← env.writeFile ["index.html"] html
  pure html

/-- Steps 4–5: sort the collected pages, then render and write the
auto index unless the list is empty or a user index was seen; an index
failure is keyed `"index.html"` and counts as a failure. -/
def indexStep (env : Env) (config : SiteConfig) (st : GenState) : GenState :=
  let sorted := sortPages st.pages
  if sorted ≠ [] ∧ st.hasUserIndex = false then
    match indexRun env config sorted with
    | .ok html => { st with pages := sorted, events := st.events ++ [.autoIndex html] }
    | .error e =>
      { st with
        pages := sorted
        failure := st.failure + 1
        errors := st.errors ++ [("index.html".data, e)] }
  else { st with pages := sorted }

/-- Step 6: copy static assets; a failure is keyed `"static assets"`
and does not touch the failure tally. -/
def staticStep (env : Env) (st : GenState) : GenState :=
  match env.copyStatic with
  | .ok _ => { st with events := st.events ++ [.staticAssets] }
  | .error e => { st with errors := st.errors ++ [("static assets".data, e)] }

/-- Step 7: copy image assets; a failure is keyed `"image assets"` and
does not touch the failure tally. -/
def imagesStep (env : Env) (st : GenState) : GenState :=
  match env.copyImages with
  | .ok _ => { st with events := st.events ++ [.imageAssets] }
  | .error e => { st with errors := st.errors ++ [("image assets".data, e)] }

/-- `generator.generate_site`: discover, early-return on an empty
discovery, initialise the renderer (a fatal error if it fails),
process every document, then run the index and asset steps. -/
def generate_site (env : Env) (config : SiteConfig) :
    Except Chars (GenerationResult × List WriteEvent) :=
  let mds := find_markdown_files env.files config.exclude
  if mds = [] then .ok (⟨0, 0, []⟩, [])
  else
    match env.rendererInit with
    | .error e => .error e
    | .ok _ =>
      let st := imagesStep env (staticStep env (indexStep env config
        (mds.foldl (stepDoc env config) initState)))
      .ok (⟨st.success, st.failure, st.errors⟩, st.events)

/-! ## Functional characterisation of the run -/

/-- Did the per-document pipeline succeed for `f`? -/
def docOk (env : Env) (config : SiteConfig) (f : RelPath) : Bool :=
  match processDoc env config f with
  | .ok _ => true
  | .error _ => false

/-- Number of successfully processed documents. -/
def okCount (env : Env) (config : SiteConfig) (mds : List RelPath) : Nat :=
  (mds.filter (docOk env config)).length

/-- The `(documentPath, error)` pairs of the failing documents, in
processing order. -/
def docErrorsOf (env : Env) (config : SiteConfig) (mds : List RelPath) :
    List (Chars × Chars) :=
  mds.filterMap (fun f =>
    match processDoc env config f with
    | .error e => some (joinPosix f, e)
    | .ok _ => none)

/-- The page writes of the succeeding documents, in processing order. -/
def docEventsOf (env : Env) (config : SiteConfig) (mds : List RelPath) : List WriteEvent :=
  mds.filterMap (fun f =>
    match processDoc env config f with
    | .ok r => some (.page r.1 r.2.2)
    | .error _ => none)

/-- The pages collected for the index listing: succeeding documents
whose output name is not (case-insensitively) `index.html`. -/
def docPagesOf (env : Env) (config : SiteConfig) (mds : List RelPath) : List PageInfo :=
  mds.filterMap (fun f =>
    match processDoc env config f with
    | .ok r => if isIndexName r.1 then none else some ⟨r.2.1, joinPosix r.1⟩
    | .error _ => none)

/-- Did some succeeding document provide a user index page? -/
def anyUserIndex (env : Env) (config : SiteConfig) (mds : List RelPath) : Bool :=
  mds.any (fun f =>
    match processDoc env config f with
    | .ok r => isIndexName r.1
    | .error _ => false)

/-- The error entries contributed by the auto-index step. -/
def indexErrorsOf (env : Env) (config : SiteConfig) (mds : List RelPath) :
    List (Chars × Chars) :=
  let sorted := sortPages (docPagesOf env config mds)
  if sorted ≠ [] ∧ anyUserIndex env config mds = false then
    match indexRun env config sorted with
    | .error e => [("index.html".data, e)]
    | .ok _ => []
  else []

/-- The write event contributed by the auto-index step. -/
def indexEventsOf (env : Env) (config : SiteConfig) (mds : List RelPath) : List WriteEvent :=
  let sorted := sortPages (docPagesOf env config mds)
  if sorted ≠ [] ∧ anyUserIndex env config mds = false then
    match indexRun env config sorted with
    | .ok html => [.autoIndex html]
    | .error _ => []
  else []

/-- The error entries contributed by static-asset copying. -/
def staticErrorsOf (env : Env) : List (Chars × Chars) :=
  match env.copyStatic with
  | .error e => [("static assets".data, e)]
  | .ok _ => []

/-- The event contributed by static-asset copying. -/
def staticEventsOf (env : Env) : List WriteEvent :=
  match env.copyStatic with
  | .ok _ => [.staticAssets]
  | .error _ => []

/-- The error entries contributed by image-asset copying. -/
def imageErrorsOf (env : Env) : List (Chars × Chars) :=
  match env.copyImages with
  | .error e => [("image assets".data, e)]
  | .ok _ => []

/-- The event contributed by image-asset copying. -/
def imageEventsOf (env : Env) : List WriteEvent :=
  match env.copyImages with
  | .ok _ => [.imageAssets]
  | .error _ => []

deriving instance DecidableEq for Except

/-! ## Characterisation lemmas -/

lemma foldl_stepDoc (env : Env) (config : SiteConfig) (mds : List RelPath) (st : GenState) :
    mds.foldl (stepDoc env config) st =
      { success := st.success + okCount env config mds
        failure := st.failure + (docErrorsOf env config mds).length
        errors := st.errors ++ docErrorsOf env config mds
        pages := st.pages ++ docPagesOf env config mds
        hasUserIndex := st.hasUserIndex || anyUserIndex env config mds
        events := st.events ++ docEventsOf env config mds } := by
  induction mds generalizing st with
  | nil =>
    simp [okCount, docErrorsOf, docPagesOf, docEventsOf, anyUserIndex]
  | cons f fs ih =>
    rw [List.foldl_cons, ih]
    cases h : processDoc env config f with
    | ok r =>
      simp only [stepDoc, h, okCount, docErrorsOf, docPagesOf, docEventsOf, anyUserIndex, docOk,
        List.filter_cons, List.filterMap_cons, List.any_cons]
      cases hi : isIndexName r.1 <;>
        simp [GenState.mk.injEq, List.append_assoc, Bool.or_assoc, Nat.add_assoc,
          Nat.add_comm 1]
    | error e =>
      simp only [stepDoc, h, okCount, docErrorsOf, docPagesOf, docEventsOf, anyUserIndex, docOk,
        List.filter_cons, List.filterMap_cons, List.any_cons]
      simp [GenState.mk.injEq, List.append_assoc, Nat.add_assoc, Nat.add_comm 1]

/-- Every discovered document is tallied exactly once: the success and
failure counts of the document loop partition the document list. -/
lemma okCount_add_errCount (env : Env) (config : SiteConfig) (mds : List RelPath) :
    okCount env config mds + (docErrorsOf env config mds).length = mds.length := by
  induction mds with
  | nil => simp [okCount, docErrorsOf]
  | cons f fs ih =>
    cases h : processDoc env config f with
    | ok r =>
      simp [okCount, docErrorsOf, List.filter_cons, List.filterMap_cons, docOk, h] at *
      omega
    | error e =>
      simp [okCount, docErrorsOf, List.filter_cons, List.filterMap_cons, docOk, h] at *
      omega

/-- The full run, as a function of the per-document outcomes and the
auxiliary steps. -/
lemma generate_site_eq (env : Env) (config : SiteConfig)
    (hmd : find_markdown_files env.files config.exclude ≠ [])
    (hinit : env.rendererInit = .ok ()) :
    generate_site env config =
      .ok
        (⟨okCount env config (find_markdown_files env.files config.exclude),
          (docErrorsOf env config (find_markdown_files env.files config.exclude)).length +
            (indexErrorsOf env config (find_markdown_files env.files config.exclude)).length,
          docErrorsOf env config (find_markdown_files env.files config.exclude) ++
            indexErrorsOf env config (find_markdown_files env.files config.exclude) ++
            staticErrorsOf env ++ imageErrorsOf env⟩,
        docEventsOf env config (find_markdown_files env.files config.exclude) ++
          indexEventsOf env config (find_markdown_files env.files config.exclude) ++
          staticEventsOf env ++ imageEventsOf env) := by
  set mds := find_markdown_files env.files config.exclude with hmds
  unfold generate_site
  rw [← hmds]
  simp only [if_neg hmd, hinit]
  rw [foldl_stepDoc]
  simp only [initState]
  by_cases hc :
      sortPages (docPagesOf env config mds) ≠ [] ∧ anyUserIndex env config mds = false
  · cases hr : indexRun env config (sortPages (docPagesOf env config mds)) with
    | ok html =>
      simp only [indexStep, indexErrorsOf, indexEventsOf, Nat.zero_add, List.nil_append,
        Bool.false_or, if_pos hc, hr]
      cases hs : env.copyStatic <;> cases hi : env.copyImages <;>
        simp [staticStep, imagesStep, staticErrorsOf, staticEventsOf, imageErrorsOf,
          imageEventsOf, hs, hi, List.append_assoc]
    | error e =>
      simp only [indexStep, indexErrorsOf, indexEventsOf, Nat.zero_add, List.nil_append,
        Bool.false_or, if_pos hc, hr]
      cases hs : env.copyStatic <;> cases hi : env.copyImages <;>
        simp [staticStep, imagesStep, staticErrorsOf, staticEventsOf, imageErrorsOf,
          imageEventsOf, hs, hi, List.append_assoc]
  · simp only [indexStep, indexErrorsOf, indexEventsOf, Nat.zero_add, List.nil_append,
      Bool.false_or, if_neg hc]
    cases hs : env.copyStatic <;> cases hi : env.copyImages <;>
      simp [staticStep, imagesStep, staticErrorsOf, staticEventsOf, imageErrorsOf,
        imageEventsOf, hs, hi, List.append_assoc]

/-! ## Claim theorems -/

/-- C1: in every completed run, every discovered Markdown document
produces exactly one outcome — its page is written and the success
count incremented, or one `(documentPath, error)` pair is recorded and
the failure count incremented; failures do not abort the loop and no
document is skipped: successes and failures partition the discovered
list, the successful writes and the recorded document errors appear
one-for-one and in order, and the failure count is exactly the number
of failed documents plus the (at most one) index failure. -/
theorem generate_site_per_document_outcomes (env : Env) (config : SiteConfig)
    (r : GenerationResult) (evts : List WriteEvent)
    (h : generate_site env config = .ok (r, evts)) :
    r.success_count = okCount env config (find_markdown_files env.files config.exclude) ∧
    okCount env config (find_markdown_files env.files config.exclude) +
        (docErrorsOf env config (find_markdown_files env.files config.exclude)).length =
      (find_markdown_files env.files config.exclude).length ∧
    (∃ aux, r.errors =
      docErrorsOf env config (find_markdown_files env.files config.exclude) ++ aux) ∧
    (∃ aux, evts =
      docEventsOf env config (find_markdown_files env.files config.exclude) ++ aux) ∧
    r.failure_count =
      (docErrorsOf env config (find_markdown_files env.files config.exclude)).length +
        (indexErrorsOf env config (find_markdown_files env.files config.exclude)).length := by
  by_cases hmd : find_markdown_files env.files config.exclude = []
  · simp only [generate_site, hmd] at h
    simp only [reduceIte, Except.ok.injEq, Prod.mk.injEq] at h
    obtain ⟨h1, h2⟩ := h
    subst h2
    refine ⟨?_, ?_, ⟨[], ?_⟩, ⟨[], ?_⟩, ?_⟩ <;>
      simp [hmd, ← h1, okCount, docErrorsOf, docEventsOf, indexErrorsOf, docPagesOf,
        anyUserIndex, sortPages]
  · cases hri : env.rendererInit with
    | error e =>
      exfalso
      have hgen : generate_site env config = .error e := by
        simp [generate_site, hmd, hri]
      rw [hgen] at h
      cases h
    | ok u =>
      cases u
      have h2 := generate_site_eq env config hmd hri
      rw [h] at h2
      simp only [Except.ok.injEq, Prod.mk.injEq] at h2
      obtain ⟨hr1, hr2⟩ := h2
      subst hr2
      subst hr1
      refine ⟨rfl, okCount_add_errCount env config _,
        ⟨indexErrorsOf env config (find_markdown_files env.files config.exclude) ++
          staticErrorsOf env ++ imageErrorsOf env, ?_⟩,
        ⟨indexEventsOf env config (find_markdown_files env.files config.exclude) ++
          staticEventsOf env ++ imageEventsOf env, ?_⟩, rfl⟩
      · simp [List.append_assoc]
      · simp [List.append_assoc]

/-- C9: a run whose discovery finds no Markdown file returns the
all-zero result with an empty error list, performs no write and
creates nothing. -/
theorem empty_discovery_zero_result (env : Env) (config : SiteConfig)
    (h : find_markdown_files env.files config.exclude = []) :
    generate_site env config = .ok (⟨0, 0, []⟩, []) := by
  simp [generate_site, h]

/-- C4: in every completed run with a non-empty discovery, the error
list decomposes into the per-document errors, the index error (keyed
`"index.html"`), the static-asset error (keyed `"static assets"`) and
the image-asset error (keyed `"image assets"`), while the failure
count counts only the document and index failures; a static or image
copy failure is recorded but never counted. -/
theorem auxiliary_asset_failures_recorded_not_counted (env : Env) (config : SiteConfig)
    (r : GenerationResult) (evts : List WriteEvent)
    (h : generate_site env config = .ok (r, evts))
    (hmd : find_markdown_files env.files config.exclude ≠ []) :
    r.errors =
      docErrorsOf env config (find_markdown_files env.files config.exclude) ++
        indexErrorsOf env config (find_markdown_files env.files config.exclude) ++
        staticErrorsOf env ++ imageErrorsOf env ∧
    r.failure_count =
      (docErrorsOf env config (find_markdown_files env.files config.exclude)).length +
        (indexErrorsOf env config (find_markdown_files env.files config.exclude)).length ∧
    (∀ e, env.copyStatic = .error e → ("static assets".data, e) ∈ r.errors) ∧
    (∀ e, env.copyImages = .error e → ("image assets".data, e) ∈ r.errors) := by
  cases hri : env.rendererInit with
  | error e =>
    exfalso
    have hgen : generate_site env config = .error e := by
      simp [generate_site, hmd, hri]
    rw [hgen] at h
    cases h
  | ok u =>
    cases u
    have h2 := generate_site_eq env config hmd hri
    rw [h] at h2
    simp only [Except.ok.injEq, Prod.mk.injEq] at h2
    obtain ⟨hr1, hr2⟩ := h2
    subst hr2
    subst hr1
    refine ⟨rfl, rfl, ?_, ?_⟩
    · intro e he
      simp [staticErrorsOf, he]
    · intro e he
      simp [imageErrorsOf, he]

/-- C3 (counterexample): Markdown discovery performs no check against
the output directory — with output directory `site` and no exclusion
patterns, the file `site/leftover.md` is selected even though it
resides inside the output directory. -/
theorem find_markdown_files_no_output_dir_check :
    find_markdown_files [[("site" : String), "leftover.md"]] [] =
        [[("site" : String), "leftover.md"]] ∧
    pathIsWithin [("site" : String)] [("site" : String), "leftover.md"] = true := by
  decide

/-- C3 (amended): every source document selected by Markdown file
discovery is an entry under the input root whose name matches `*.md`
and whose relative path matches no exclusion pattern; discovery
applies no output-directory containment check (only image-asset
copying does). -/
theorem find_markdown_files_selects_md_not_excluded (files : List RelPath)
    (pats : List Chars) (f : RelPath) (h : f ∈ find_markdown_files files pats) :
    f ∈ files ∧ hasMdName f = true ∧ matchesAnyPattern f pats = false := by
  rw [find_markdown_files, List.mem_filter] at h
  refine ⟨h.1, ?_, ?_⟩
  · have := h.2
    simp only [Bool.and_eq_true] at this
    exact this.1
  · have := h.2
    simp only [Bool.and_eq_true, Bool.not_eq_true'] at this
    exact this.2

theorem find_markdown_files_selects_md_not_excluded_witness :
    ([("a.md" : String)] ∈ find_markdown_files [[("a.md" : String)]] []) ∧
      ([("a.md" : String)] ∈ [[("a.md" : String)]] ∧
        hasMdName [("a.md" : String)] = true ∧
        matchesAnyPattern [("a.md" : String)] [] = false) :=
  ⟨by decide, find_markdown_files_selects_md_not_excluded [[("a.md" : String)]] []
    [("a.md" : String)] (by decide)⟩

/-- A small concrete site configuration used by witnesses. -/
def cfg0 : SiteConfig := ⟨"site".data, [], "S".data, "/".data, true⟩

/-- Concrete environment: three documents, one unreadable, a failing
static-asset copy (the spec's partial-failure scenario). -/
def envA : Env where
  files := [["a.md"], ["bad.md"], ["sub", "b.md"]]
  rendererInit := .ok ()
  readFile := fun f => if f = [("bad.md" : String)] then .error "boom".data else .ok "hello".data
  mdToHtml := id
  renderPage := fun c _ _ _ => .ok c
  renderIndex := fun ps _ _ => .ok (joinPosix (ps.map (fun p => String.mk p.relative_path)))
  writeFile := fun _ _ => .ok ()
  copyStatic := .error "no css".data
  copyImages := .ok ()

/-- The result of running the generator on `envA`. -/
def resA : GenerationResult :=
  ⟨2, 1, [("bad.md".data, "boom".data), ("static assets".data, "no css".data)]⟩

/-- The effects of running the generator on `envA`. -/
def evA : List WriteEvent :=
  [.page [("a.html" : String)] "hello".data, .page [("sub" : String), "b.html"] "hello".data,
    .autoIndex "a.html/sub/b.html".data, .imageAssets]

theorem generate_site_per_document_outcomes_witness :
    generate_site envA cfg0 = .ok (resA, evA) ∧
    (resA.success_count = okCount envA cfg0 (find_markdown_files envA.files cfg0.exclude) ∧
      okCount envA cfg0 (find_markdown_files envA.files cfg0.exclude) +
          (docErrorsOf envA cfg0 (find_markdown_files envA.files cfg0.exclude)).length =
        (find_markdown_files envA.files cfg0.exclude).length ∧
      (∃ aux, resA.errors =
        docErrorsOf envA cfg0 (find_markdown_files envA.files cfg0.exclude) ++ aux) ∧
      (∃ aux, evA =
        docEventsOf envA cfg0 (find_markdown_files envA.files cfg0.exclude) ++ aux) ∧
      resA.failure_count =
        (docErrorsOf envA cfg0 (find_markdown_files envA.files cfg0.exclude)).length +
          (indexErrorsOf envA cfg0 (find_markdown_files envA.files cfg0.exclude)).length) :=
  ⟨by decide, generate_site_per_document_outcomes envA cfg0 resA evA (by decide)⟩

theorem auxiliary_asset_failures_recorded_not_counted_witness :
    find_markdown_files envA.files cfg0.exclude ≠ [] ∧
    (resA.errors =
        docErrorsOf envA cfg0 (find_markdown_files envA.files cfg0.exclude) ++
          indexErrorsOf envA cfg0 (find_markdown_files envA.files cfg0.exclude) ++
          staticErrorsOf envA ++ imageErrorsOf envA ∧
      resA.failure_count =
        (docErrorsOf envA cfg0 (find_markdown_files envA.files cfg0.exclude)).length +
          (indexErrorsOf envA cfg0 (find_markdown_files envA.files cfg0.exclude)).length ∧
      (∀ e, envA.copyStatic = .error e → ("static assets".data, e) ∈ resA.errors) ∧
      (∀ e, envA.copyImages = .error e → ("image assets".data, e) ∈ resA.errors)) :=
  ⟨by decide,
    auxiliary_asset_failures_recorded_not_counted envA cfg0 resA evA (by decide) (by decide)⟩

/-- Concrete environment with no Markdown file at all. -/
def envE : Env where
  files := [["notes.txt"]]
  rendererInit := .ok ()
  readFile := fun _ => .ok []
  mdToHtml := id
  renderPage := fun c _ _ _ => .ok c
  renderIndex := fun _ _ _ => .ok []
  writeFile := fun _ _ => .ok ()
  copyStatic := .ok ()
  copyImages := .ok ()

theorem empty_discovery_zero_result_witness :
    find_markdown_files envE.files cfg0.exclude = [] ∧
    generate_site envE cfg0 = .ok (⟨0, 0, []⟩, []) :=
  ⟨by decide, empty_discovery_zero_result envE cfg0 (by decide)⟩

/-- No per-document write is an auto-index write. -/
lemma autoIndex_not_mem_docEventsOf (env : Env) (config : SiteConfig) (mds : List RelPath)
    (html : Chars) : WriteEvent.autoIndex html ∉ docEventsOf env config mds := by
  intro hm
  rw [docEventsOf, List.mem_filterMap] at hm
  obtain ⟨f, _, hf⟩ := hm
  cases hp : processDoc env config f with
  | ok r2 => rw [hp] at hf; simp at hf
  | error e => rw [hp] at hf; simp at hf

/-- C2: an output-relative path whose final name equals `index.html`
case-insensitively is normalised to lowercase `index.html` in its own
directory; `Index.md`, `INDEX.MD` and `index.md` all map to the single
output path `index.html`; when a user-supplied index exists no
auto-generated index is written; and a successfully processed document
with an index-named output contributes nothing to the index listing
while marking the user index as present. -/
theorem index_name_normalization_and_exclusion :
    (∀ rel : RelPath, isIndexName (toHtmlPath rel) = true →
      outputRelPath rel = (toHtmlPath rel).dropLast ++ ["index.html"]) ∧
    (outputRelPath [("Index.md" : String)] = [("index.html" : String)] ∧
      outputRelPath [("INDEX.MD" : String)] = [("index.html" : String)] ∧
      outputRelPath [("index.md" : String)] = [("index.html" : String)]) ∧
    (∀ (env : Env) (config : SiteConfig) (r : GenerationResult) (evts : List WriteEvent),
      generate_site env config = .ok (r, evts) →
      anyUserIndex env config (find_markdown_files env.files config.exclude) = true →
      ∀ html, WriteEvent.autoIndex html ∉ evts) ∧
    (∀ (env : Env) (config : SiteConfig) (f : RelPath) (p : RelPath) (t rend : Chars),
      processDoc env config f = .ok (p, t, rend) → isIndexName p = true →
      docPagesOf env config [f] = [] ∧ anyUserIndex env config [f] = true) := by
  refine ⟨?_, ⟨by decide, by decide, by decide⟩, ?_, ?_⟩
  · intro rel hidx
    simp [outputRelPath, normalizeIndexName, hidx]
  · intro env config r evts h hyi html
    by_cases hmd : find_markdown_files env.files config.exclude = []
    · rw [hmd] at hyi
      simp [anyUserIndex] at hyi
    · cases hri : env.rendererInit with
      | error e =>
        exfalso
        have hgen : generate_site env config = .error e := by
          simp [generate_site, hmd, hri]
        rw [hgen] at h
        cases h
      | ok u =>
        cases u
        have h2 := generate_site_eq env config hmd hri
        rw [h] at h2
        simp only [Except.ok.injEq, Prod.mk.injEq] at h2
        obtain ⟨hr1, hr2⟩ := h2
        subst hr2
        intro hmem
        rcases List.mem_append.mp hmem with hmem | hmem
        · rcases List.mem_append.mp hmem with hmem | hmem
          · rcases List.mem_append.mp hmem with hmem | hmem
            · exact autoIndex_not_mem_docEventsOf env config _ html hmem
            · rw [indexEventsOf] at hmem
              simp only [hyi] at hmem
              simp at hmem
          · rw [staticEventsOf] at hmem
            cases hcs : env.copyStatic <;> simp [hcs] at hmem
        · rw [imageEventsOf] at hmem
          cases hci : env.copyImages <;> simp [hci] at hmem
  · intro env config f p t rend hp hidx
    constructor
    · simp [docPagesOf, hp, hidx]
    · simp [anyUserIndex, hp, hidx]

/-- Concrete environment with a user-supplied `index.md`. -/
def envB : Env where
  files := [["index.md"], ["a.md"]]
  rendererInit := .ok ()
  readFile := fun _ => .ok "hi".data
  mdToHtml := id
  renderPage := fun c _ _ _ => .ok c
  renderIndex := fun _ _ _ => .ok "IDX".data
  writeFile := fun _ _ => .ok ()
  copyStatic := .ok ()
  copyImages := .ok ()

/-- The result of running the generator on `envB`. -/
def resB : GenerationResult := ⟨2, 0, []⟩

/-- The effects of running the generator on `envB`: the user index and
one page are written, and no auto index is generated. -/
def evB : List WriteEvent :=
  [.page [("index.html" : String)] "hi".data, .page [("a.html" : String)] "hi".data,
    .staticAssets, .imageAssets]

theorem index_name_normalization_and_exclusion_witness :
    (isIndexName (toHtmlPath [("Index.md" : String)]) = true ∧
      outputRelPath [("Index.md" : String)] =
        (toHtmlPath [("Index.md" : String)]).dropLast ++ ["index.html"]) ∧
    (∀ html, WriteEvent.autoIndex html ∉ evB) :=
  ⟨⟨by decide,
      (index_name_normalization_and_exclusion).1 [("Index.md" : String)] (by decide)⟩,
    (index_name_normalization_and_exclusion).2.2.1 envB cfg0 resB evB (by decide) (by decide)⟩

/-- C7: a gitignore line that is a bare name (no `/`, `*`, `?`, `[`)
produces exactly the two patterns `name` and `name/**`; in particular
`.venv` produces `.venv` and `.venv/**`, and both `.venv` and
`.venv/lib/foo.md` are excluded by the resulting patterns. -/
theorem bare_gitignore_name_two_patterns (raw l : Chars)
    (hstrip : pyStrip raw = l) (hne : l ≠ [])
    (hc : l.head? ≠ some '#') (hb : l.head? ≠ some '!')
    (hs : l.contains '/' = false) (hstar : l.contains '*' = false)
    (hq : l.contains '?' = false) (hbr : l.contains '[' = false) :
    load_gitignore_patterns [raw] = [l, l ++ ['/', '*', '*']] ∧
    (load_gitignore_patterns [".venv".data] = [".venv".data, ".venv/**".data] ∧
      matchesAnyPattern [(".venv" : String)] (load_gitignore_patterns [".venv".data]) = true ∧
      matchesAnyPattern [(".venv" : String), "lib", "foo.md"]
        (load_gitignore_patterns [".venv".data]) = true) := by
  constructor
  · have hmem : ¬ '/' ∈ l := by simpa using hs
    have hh : l.head? ≠ some '/' := by
      intro hg
      cases l with
      | nil => simp at hg
      | cons a t =>
        simp at hg
        exact hmem (hg ▸ List.mem_cons_self a t)
    have hgl : l.getLast? ≠ some '/' := by
      intro hg
      have hx : '/' ∈ l.getLast? := by rw [hg]; rfl
      obtain ⟨hne2, heq⟩ := List.mem_getLast?_eq_getLast hx
      have hlast := List.getLast_mem hne2
      rw [← heq] at hlast
      exact hmem hlast
    have hcand : gitignoreCandidates raw = [l, l ++ ['/', '*', '*']] := by
      simp only [gitignoreCandidates, hstrip]
      rw [if_neg hne, if_neg hc, if_neg hb, if_neg hh, if_neg hne, if_neg hgl]
      have hmem2 : '*' ∉ l := by simpa using hstar
      have hmem3 : '?' ∉ l := by simpa using hq
      have hmem4 : '[' ∉ l := by simpa using hbr
      simp [hs, hstar, hq, hbr, hmem, hmem2, hmem3, hmem4]
    have hlen : ¬ (l ++ ['/', '*', '*'] = l) := by
      intro hf
      have := congrArg List.length hf
      simp at this
    simp [load_gitignore_patterns, hcand, hlen]
  · exact ⟨by decide, by decide, by decide⟩

theorem bare_gitignore_name_two_patterns_witness :
    pyStrip ".venv".data = ".venv".data ∧
    load_gitignore_patterns [".venv".data] = [".venv".data, ".venv".data ++ ['/', '*', '*']] :=
  ⟨by decide,
    (bare_gitignore_name_two_patterns ".venv".data ".venv".data (by decide) (by decide)
      (by decide) (by decide) (by decide) (by decide) (by decide) (by decide)).1⟩

lemma extend_unique_cons (t : List Chars) (x : Chars) (xs : List Chars) :
    extend_unique t (x :: xs) = extend_unique (if x ∈ t then t else t ++ [x]) xs := rfl

lemma extend_unique_nodup (items : List Chars) :
    ∀ t : List Chars, t.Nodup → (extend_unique t items).Nodup := by
  induction items with
  | nil => intro t ht; exact ht
  | cons x xs ih =>
    intro t ht
    rw [extend_unique_cons]
    by_cases hx : x ∈ t
    · rw [if_pos hx]; exact ih t ht
    · rw [if_neg hx]
      refine ih _ ?_
      simp [List.nodup_append, ht, hx]

lemma extend_unique_exists_suffix (items : List Chars) :
    ∀ t : List Chars, ∃ s, extend_unique t items = t ++ s := by
  induction items with
  | nil => intro t; exact ⟨[], by simp [extend_unique]⟩
  | cons x xs ih =>
    intro t
    rw [extend_unique_cons]
    by_cases hx : x ∈ t
    · rw [if_pos hx]; exact ih t
    · rw [if_neg hx]
      obtain ⟨s, hs⟩ := ih (t ++ [x])
      exact ⟨[x] ++ s, by simpa using hs⟩

/-- C8: gitignore-derived patterns are merged after the explicitly
configured excludes with cross-list deduplication: the merged list
never holds a pattern twice, it starts with the (deduplicated)
explicit excludes, and the `drafts/**`-vs-`drafts/` scenario yields
`drafts/**` exactly once. -/
theorem exclude_merge_dedup :
    (∀ (ex : List Chars) (lines : List Chars) (respect : Bool),
      (mergedExcludePatterns ex lines respect).Nodup) ∧
    (∀ (ex : List Chars) (lines : List Chars) (respect : Bool),
      ∃ s, mergedExcludePatterns ex lines respect = extend_unique [] ex ++ s) ∧
    mergedExcludePatterns ["drafts/**".data] ["drafts/".data] true = ["drafts/**".data] ∧
    (mergedExcludePatterns ["drafts/**".data] ["drafts/".data] true).count "drafts/**".data
      = 1 := by
  refine ⟨?_, ?_, by decide, by decide⟩
  · intro ex lines respect
    have hbase : (extend_unique [] ex).Nodup := extend_unique_nodup ex [] List.nodup_nil
    cases respect with
    | false => simpa [mergedExcludePatterns] using hbase
    | true =>
      simpa [mergedExcludePatterns] using
        extend_unique_nodup (load_gitignore_patterns lines) (extend_unique [] ex) hbase
  · intro ex lines respect
    cases respect with
    | false => exact ⟨[], by simp [mergedExcludePatterns]⟩
    | true =>
      simpa [mergedExcludePatterns] using
        extend_unique_exists_suffix (load_gitignore_patterns lines) (extend_unique [] ex)

lemma takeWhile_append_cons {p : Char → Bool} (l : Chars) (c : Char) (u : Chars)
    (hl : ∀ a ∈ l, p a = true) (hc : p c = false) :
    (l ++ c :: u).takeWhile p = l := by
  induction l with
  | nil => simp [List.takeWhile_cons, hc]
  | cons a l ih =>
    have ha : p a = true := hl a (List.mem_cons_self a l)
    simp only [List.cons_append, List.takeWhile_cons, ha, if_true]
    rw [ih (fun x hx => hl x (List.mem_cons_of_mem a hx))]

lemma dropWhile_append_cons {p : Char → Bool} (l : Chars) (c : Char) (u : Chars)
    (hl : ∀ a ∈ l, p a = true) (hc : p c = false) :
    (l ++ c :: u).dropWhile p = c :: u := by
  induction l with
  | nil => simp [List.dropWhile_cons, hc]
  | cons a l ih =>
    have ha : p a = true := hl a (List.mem_cons_self a l)
    simp only [List.cons_append, List.dropWhile_cons, ha, if_true]
    exact ih (fun x hx => hl x (List.mem_cons_of_mem a hx))

/-- The link regex matches at the head of a well-formed link. -/
lemma tryLink_on_link (text target rest : Chars) (htne : text ≠ []) (htb : ']' ∉ text)
    (htg : target ≠ []) (htp : ')' ∉ target) :
    tryLink ('[' :: (text ++ ']' :: '(' :: (target ++ ['.', 'm', 'd', ')'] ++ rest))) =
      some (text, target, rest) := by
  have hl1 : ∀ a ∈ text, (decide (a ≠ ']')) = true := by
    intro a ha
    simp only [decide_eq_true_eq]
    intro he
    exact htb (he ▸ ha)
  have hl2 : ∀ a ∈ target ++ ['.', 'm', 'd'], (decide (a ≠ ')')) = true := by
    intro a ha
    simp only [decide_eq_true_eq]
    intro he
    subst he
    rcases List.mem_append.mp ha with ha | ha
    · exact htp ha
    · simp at ha
  have hr2 : target ++ ['.', 'm', 'd', ')'] ++ rest =
      (target ++ ['.', 'm', 'd']) ++ ')' :: rest := by
    simp [List.append_assoc]
  have hfour : 4 ≤ (target ++ ['.', 'm', 'd']).length := by
    have h1 : 1 ≤ target.length := List.length_pos.mpr htg
    simp only [List.length_append]
    simpa using h1
  have hsub : (target ++ ['.', 'm', 'd']).length - 3 = target.length := by
    simp
  have hcond : (')' : Char) = ')' ∧ 4 ≤ (target ++ ['.', 'm', 'd']).length ∧
      (target ++ ['.', 'm', 'd']).drop ((target ++ ['.', 'm', 'd']).length - 3) =
        ['.', 'm', 'd'] :=
    ⟨rfl, hfour, by rw [hsub]; exact List.drop_left target ['.', 'm', 'd']⟩
  rw [hr2]
  simp only [tryLink, if_true]
  rw [takeWhile_append_cons text ']' ('(' :: ((target ++ ['.', 'm', 'd']) ++ ')' :: rest))
      hl1 (by simp),
    dropWhile_append_cons text ']' ('(' :: ((target ++ ['.', 'm', 'd']) ++ ')' :: rest))
      hl1 (by simp)]
  rw [if_neg htne]
  simp only [and_self, if_true]
  rw [takeWhile_append_cons (target ++ ['.', 'm', 'd']) ')' rest hl2 (by simp),
    dropWhile_append_cons (target ++ ['.', 'm', 'd']) ')' rest hl2 (by simp)]
  simp only [true_and]
  rw [if_pos (And.intro hfour hcond.2.2)]
  rw [hsub, List.take_left]

/-- A successful link match consumes at least one character of the
input. -/
lemma tryLink_after_lt (cs text target after : Chars)
    (h : tryLink cs = some (text, target, after)) : after.length < cs.length := by
  cases cs with
  | nil => simp [tryLink] at h
  | cons c t =>
    simp only [tryLink] at h
    split at h
    · split at h
      · simp at h
      · split at h
        · rename_i d1 d2 r2 heq
          split at h
          · split at h
            · rename_i d3 rest heq2
              split at h
              · simp only [Option.some.injEq, Prod.mk.injEq] at h
                obtain ⟨-, -, h3⟩ := h
                subst h3
                have hd1 : (d1 :: d2 :: r2).length ≤ t.length := by
                  rw [← heq]
                  exact (List.dropWhile_sublist _).length_le
                have hd2 : (d3 :: rest).length ≤ r2.length := by
                  rw [← heq2]
                  exact (List.dropWhile_sublist _).length_le
                simp only [List.length_cons] at hd1 hd2 ⊢
                omega
              · simp at h
            · simp at h
          · simp at h
        · simp at h
    · simp at h

/-- Unfolding step of the rewriting scan. -/
lemma convertLinksAux_cons (fuel : Nat) (c : Char) (t : Chars) :
    convertLinksAux (fuel + 1) (c :: t) =
      match tryLink (c :: t) with
      | some (text, target, after) => rewrittenLink text target ++ convertLinksAux fuel after
      | none => c :: convertLinksAux fuel t := rfl

/-- Any fuel at least the input length computes the rewriting. -/
lemma convertLinksAux_eq :
    ∀ (fuel : Nat) (cs : Chars), cs.length ≤ fuel →
      convertLinksAux fuel cs = convert_md_links_to_html cs := by
  intro fuel
  induction fuel using Nat.strong_induction_on with
  | _ fuel ih =>
    intro cs h
    cases cs with
    | nil => cases fuel <;> rfl
    | cons c t =>
      cases fuel with
      | zero => simp at h
      | succ n =>
        have hlen : (c :: t).length = t.length + 1 := rfl
        rw [convert_md_links_to_html, hlen, convertLinksAux_cons, convertLinksAux_cons]
        cases htl : tryLink (c :: t) with
        | some val =>
          obtain ⟨text, target, after⟩ := val
          have hlt := tryLink_after_lt (c :: t) text target after htl
          simp only [List.length_cons] at hlt h
          simp only [ih n (Nat.lt_succ_self n) after (by omega),
            ih t.length (by omega) after (by omega)]
        | none =>
          simp only [List.length_cons] at h
          simp only [ih n (Nat.lt_succ_self n) t (by omega),
            ih t.length (by omega) t (Nat.le_refl _)]

/-- C6: a well-formed inline link `[text](target.md)` (text non-empty
without `]`, target non-empty without `)`) at the head of the input is
rewritten to `[text](target.html)` and rewriting continues on the rest
of the input, so every occurrence is rewritten; a link whose target
does not end in `.md` right before the `)` — such as
`[See more](other.md#section)` — is left unmodified. -/
theorem md_link_rewriting :
    (∀ text target rest : Chars, text ≠ [] → ']' ∉ text → target ≠ [] → ')' ∉ target →
      convert_md_links_to_html
          ('[' :: (text ++ ']' :: '(' :: (target ++ ['.', 'm', 'd', ')'] ++ rest))) =
        rewrittenLink text target ++ convert_md_links_to_html rest) ∧
    convert_md_links_to_html "[See more](other.md)".data = "[See more](other.html)".data ∧
    convert_md_links_to_html "[See more](other.md#section)".data =
      "[See more](other.md#section)".data := by
  refine ⟨?_, by decide, by decide⟩
  intro text target rest htne htb htg htp
  have hlink := tryLink_on_link text target rest htne htb htg htp
  have hlen :
      ('[' :: (text ++ ']' :: '(' :: (target ++ ['.', 'm', 'd', ')'] ++ rest))).length =
        (text ++ ']' :: '(' :: (target ++ ['.', 'm', 'd', ')'] ++ rest)).length + 1 := rfl
  rw [convert_md_links_to_html, hlen, convertLinksAux_cons]
  simp only [hlink]
  congr 1
  refine convertLinksAux_eq _ rest ?_
  simp only [List.length_append, List.length_cons]
  omega

theorem md_link_rewriting_witness :
    "See more".data ≠ ([] : Chars) ∧
    convert_md_links_to_html
        ('[' :: ("See more".data ++ ']' :: '(' :: ("other".data ++ ['.', 'm', 'd', ')'] ++ []))) =
      rewrittenLink "See more".data "other".data ++ convert_md_links_to_html [] :=
  ⟨by decide,
    (md_link_rewriting).1 "See more".data "other".data [] (by decide) (by decide) (by decide)
      (by decide)⟩

/-- Right after a newline whose following whitespace holds no further
newline, `\s*\n` matches in exactly one way. -/
lemma wsNlSplits_newline (body : Chars) (h : '\n' ∉ body.takeWhile isPyWS) :
    wsNlSplits ('\n' :: body) = [body] := by
  have htw : ('\n' :: body).takeWhile isPyWS = '\n' :: body.takeWhile isPyWS := by
    simp [List.takeWhile_cons, isPyWS]
  have hk : wsRunLen ('\n' :: body) = (body.takeWhile isPyWS).length + 1 := by
    simp [wsRunLen, htw]
  have hfilter : ∀ i ∈ List.range ((body.takeWhile isPyWS).length + 1),
      (decide (('\n' :: body).get? i = some '\n')) = decide (i = 0) := by
    intro i hi
    cases i with
    | zero => simp
    | succ j =>
      rw [List.mem_range] at hi
      have hj : j < (body.takeWhile isPyWS).length := by omega
      have hpref : body.get? j = (body.takeWhile isPyWS).get? j := by
        conv_lhs => rw [← List.takeWhile_append_dropWhile (p := isPyWS) (l := body)]
        simp only [List.get?_eq_getElem?]
        exact List.getElem?_append_left hj
      have hne : (body.takeWhile isPyWS).get? j ≠ some '\n' := by
        intro hcontra
        exact h (List.get?_mem hcontra)
      have hne2 : (body.takeWhile isPyWS)[j]? ≠ some '\n' := by
        simpa [List.get?_eq_getElem?] using hne
      simp only [List.get?_cons_succ, hpref]
      simp [hne2]
  have hf2 : ∀ k : Nat, (List.range (k + 1)).filter (fun i => decide (i = 0)) = [0] := by
    intro k
    induction k with
    | zero => decide
    | succ n ihn =>
      rw [List.range_succ, List.filter_append, ihn]
      simp
  rw [wsNlSplits, nlPositions, hk, List.filter_congr hfilter, hf2]
  simp

/-- The closing-delimiter scan passes over newline-free content. -/
lemma findClosingGo_append (fm : Chars) (hfm : ∀ c ∈ fm, c ≠ '\n') :
    ∀ acc rest : Chars, findClosingGo acc (fm ++ rest) = findClosingGo (acc ++ fm) rest := by
  induction fm with
  | nil => intro acc rest; simp
  | cons c fm ih =>
    intro acc rest
    have hc : c ≠ '\n' := hfm c (List.mem_cons_self c fm)
    rw [List.cons_append]
    simp only [findClosingGo]
    rw [if_neg (fun hcond => hc hcond.1)]
    rw [ih (fun x hx => hfm x (List.mem_cons_of_mem c hx)) (acc ++ [c]) rest]
    have hacc : (acc ++ [c]) ++ fm = acc ++ c :: fm := by simp
    rw [hacc]

/-- The closing-delimiter scan accepts `\n---\n` followed by the body. -/
lemma findClosingGo_closing (acc body : Chars) (h : '\n' ∉ body.takeWhile isPyWS) :
    findClosingGo acc ('\n' :: '-' :: '-' :: '-' :: '\n' :: body) = some (acc, body) := by
  have hds : (('-' :: '-' :: '-' :: '\n' :: body : Chars)).drop 3 = '\n' :: body := rfl
  have hws : wsNlSplits ((('-' :: '-' :: '-' :: '\n' :: body : Chars)).drop 3) ≠ [] := by
    rw [hds, wsNlSplits_newline body h]
    simp
  simp only [findClosingGo]
  rw [if_pos (by exact ⟨by trivial, by trivial, hws⟩)]
  rw [hds, wsNlSplits_newline body h]
  rfl

/-- The tail of `"\n".join(lines)`: a newline before each further
line. -/
def joinTail : List Chars → Chars
  | [] => []
  | l :: ls => '\n' :: (l ++ joinTail ls)

/-- `"\n".join(lines)`: the frontmatter block content made of the
given lines. -/
def joinLines : List Chars → Chars
  | [] => []
  | l :: ls => l ++ joinTail ls

lemma takeWhile_append_of_dropWhile_ne {p : Char → Bool} (l x : Chars)
    (h : l.dropWhile p ≠ []) : (l ++ x).takeWhile p = l.takeWhile p := by
  induction l with
  | nil => simp [List.dropWhile] at h
  | cons a l ih =>
    by_cases ha : p a = true
    · have h2 : l.dropWhile p ≠ [] := by
        simpa [List.dropWhile_cons, ha] using h
      simp only [List.cons_append, List.takeWhile_cons, ha, if_true]
      rw [ih h2]
    · simp only [List.cons_append, List.takeWhile_cons, ha]
      simp [ha]

/-- Prepending a line that does not open like `---` cannot create a
`---` opening, because a newline follows it. -/
lemma take3_append_ne (L X : Chars) (hL : L.take 3 ≠ ['-', '-', '-'])
    (hX : X.head? = some '\n') : (L ++ X).take 3 ≠ ['-', '-', '-'] := by
  obtain ⟨X', rfl⟩ : ∃ X', X = '\n' :: X' := by
    cases X with
    | nil => simp at hX
    | cons a X' =>
      simp at hX
      exact ⟨X', by rw [hX]⟩
  rcases L with _ | ⟨a, _ | ⟨b, _ | ⟨c, L'⟩⟩⟩
  · intro h
    simp at h
  · intro h
    simp at h
  · intro h
    simp at h
  · intro h
    exact hL (by simpa using h)

/-- The joined tail of the block, followed by the closing delimiter,
starts with a newline. -/
lemma joinTail_head (ls : List Chars) (Y : Chars) :
    ((joinTail ls) ++ '\n' :: Y).head? = some '\n' := by
  cases ls <;> simp [joinTail]

/-- The closing-delimiter scan walks the remaining lines of the block
(none of which opens like `---`) and accepts at the closing `---`. -/
lemma findClosingGo_lines (body : Chars) (hbody : '\n' ∉ body.takeWhile isPyWS) :
    ∀ (ls : List Chars) (acc : Chars),
      (∀ L ∈ ls, '\n' ∉ L ∧ L.take 3 ≠ ['-', '-', '-']) →
      findClosingGo acc (joinTail ls ++ '\n' :: '-' :: '-' :: '-' :: '\n' :: body) =
        some (acc ++ joinTail ls, body) := by
  intro ls
  induction ls with
  | nil =>
    intro acc _
    simpa [joinTail] using findClosingGo_closing acc body hbody
  | cons L ls ih =>
    intro acc hls
    have hLnl : '\n' ∉ L := (hls L (List.mem_cons_self L ls)).1
    have hL3 : L.take 3 ≠ ['-', '-', '-'] := (hls L (List.mem_cons_self L ls)).2
    have hjoin : joinTail (L :: ls) ++ '\n' :: '-' :: '-' :: '-' :: '\n' :: body =
        '\n' :: (L ++ (joinTail ls ++ '\n' :: '-' :: '-' :: '-' :: '\n' :: body)) := by
      simp [joinTail]
    rw [hjoin]
    simp only [findClosingGo]
    rw [if_neg (fun hcond =>
      take3_append_ne L (joinTail ls ++ '\n' :: '-' :: '-' :: '-' :: '\n' :: body) hL3
        (joinTail_head ls ('-' :: '-' :: '-' :: '\n' :: body)) hcond.2.1)]
    rw [findClosingGo_append L (fun c hc he => hLnl (he ▸ hc)) (acc ++ ['\n'])
      (joinTail ls ++ '\n' :: '-' :: '-' :: '-' :: '\n' :: body)]
    rw [ih ((acc ++ ['\n']) ++ L) (fun L2 h2 => hls L2 (List.mem_cons_of_mem L h2))]
    simp [joinTail, List.append_assoc]

/-- Extraction of a well-formed frontmatter block with any number of
content lines: both delimiter lines and the whole block are removed
from the body, and the title is searched within the block alone.  The
hypotheses are those the regex semantics impose: the first content
line is not all-whitespace (else the greedy `\s*` after the opening
`---` would absorb it) and no further line opens like the closing
delimiter (else the lazy group would close there). -/
lemma extract_frontmatter_lines (l0 : Chars) (ls : List Chars) (body : Chars)
    (h0 : l0.dropWhile isPyWS ≠ []) (h0nl : '\n' ∉ l0)
    (hls : ∀ L ∈ ls, '\n' ∉ L ∧ L.take 3 ≠ ['-', '-', '-'])
    (hbody : '\n' ∉ body.takeWhile isPyWS) :
    extract_frontmatter (['-', '-', '-', '\n'] ++ joinLines (l0 :: ls) ++
        '\n' :: '-' :: '-' :: '-' :: '\n' :: body) =
      (body, titleSearch (joinLines (l0 :: ls))) := by
  have hinput : (['-', '-', '-', '\n'] : Chars) ++ joinLines (l0 :: ls) ++
      '\n' :: '-' :: '-' :: '-' :: '\n' :: body =
      '-' :: '-' :: '-' :: '\n' ::
        (joinLines (l0 :: ls) ++ '\n' :: '-' :: '-' :: '-' :: '\n' :: body) := by
    simp
  have hXassoc : joinLines (l0 :: ls) ++ '\n' :: '-' :: '-' :: '-' :: '\n' :: body =
      l0 ++ (joinTail ls ++ '\n' :: '-' :: '-' :: '-' :: '\n' :: body) := by
    simp [joinLines, List.append_assoc]
  have hXn : '\n' ∉ (joinLines (l0 :: ls) ++
      '\n' :: '-' :: '-' :: '-' :: '\n' :: body).takeWhile isPyWS := by
    rw [hXassoc, takeWhile_append_of_dropWhile_ne l0 _ h0]
    intro hm
    exact h0nl ((List.takeWhile_sublist _).subset hm)
  have hclose : findClosingGo [] (joinLines (l0 :: ls) ++
      '\n' :: '-' :: '-' :: '-' :: '\n' :: body) = some (joinLines (l0 :: ls), body) := by
    rw [hXassoc]
    rw [findClosingGo_append l0 (fun c hc he => h0nl (he ▸ hc)) []
      (joinTail ls ++ '\n' :: '-' :: '-' :: '-' :: '\n' :: body)]
    rw [List.nil_append]
    rw [findClosingGo_lines body hbody ls l0 hls]
    simp [joinLines]
  rw [hinput]
  simp only [extract_frontmatter, frontmatterMatch]
  rw [if_pos (show ('-' :: '-' :: '-' :: '\n' ::
      (joinLines (l0 :: ls) ++ '\n' :: '-' :: '-' :: '-' :: '\n' :: body) : Chars).take 3 =
      ['-', '-', '-'] from rfl)]
  have hdrop : (('-' :: '-' :: '-' :: '\n' ::
      (joinLines (l0 :: ls) ++ '\n' :: '-' :: '-' :: '-' :: '\n' :: body)) : Chars).drop 3 =
      '\n' :: (joinLines (l0 :: ls) ++ '\n' :: '-' :: '-' :: '-' :: '\n' :: body) := rfl
  rw [hdrop, wsNlSplits_newline _ hXn]
  simp only [firstClosing]
  rw [hclose]

lemma getLast?_mem_chars {l : Chars} {c : Char} (h : l.getLast? = some c) : c ∈ l := by
  have hx : c ∈ l.getLast? := by rw [h]; rfl
  obtain ⟨hne2, heq⟩ := List.mem_getLast?_eq_getLast hx
  have hlast := List.getLast_mem hne2
  rwa [← heq] at hlast

lemma quote_not_ws (q : Char) (hq : isQuoteChar q = true) : isPyWS q = false := by
  rcases (by simpa [isQuoteChar] using hq : q = '"' ∨ q = Char.ofNat 39) with h | h <;>
    subst h <;> decide

lemma quote_ne_nl (q : Char) (hq : isQuoteChar q = true) : q ≠ '\n' := by
  rcases (by simpa [isQuoteChar] using hq : q = '"' ∨ q = Char.ofNat 39) with h | h <;>
    subst h <;> decide

/-- Dropping the whitespace-run length is dropping the whitespace. -/
lemma drop_wsRunLen_eq (x : Chars) : x.drop (wsRunLen x) = x.dropWhile isPyWS := by
  induction x with
  | nil => rfl
  | cons a x ih =>
    by_cases ha : isPyWS a = true
    · have h1 : wsRunLen (a :: x) = wsRunLen x + 1 := by
        simp [wsRunLen, List.takeWhile_cons, ha]
      rw [h1, List.drop_succ_cons, ih]
      simp [List.dropWhile_cons, ha]
    · have h1 : wsRunLen (a :: x) = 0 := by
        simp [wsRunLen, List.takeWhile_cons, ha]
      rw [h1, List.drop_zero]
      simp [List.dropWhile_cons, ha]

lemma dropWhile_ne_of_mem_neg {p : Char → Bool} {x : Chars} {a : Char}
    (ha : a ∈ x) (hpa : p a = false) : x.dropWhile p ≠ [] := by
  intro h
  rw [List.dropWhile_eq_nil_iff] at h
  rw [h a ha] at hpa
  cases hpa

/-- `\s*$` cannot match on a newline-free text that still holds a
non-whitespace character. -/
lemma endOfLineOK_false (x : Chars) (hnl : '\n' ∉ x) (hex : x.dropWhile isPyWS ≠ []) :
    endOfLineOK x = false := by
  have h1 : (decide (x.drop (wsRunLen x) = [])) = false := by
    simp only [decide_eq_false_iff_not]
    rw [drop_wsRunLen_eq]
    exact hex
  have h2 : (decide ('\n' ∈ x.take (wsRunLen x))) = false := by
    simp only [decide_eq_false_iff_not]
    intro hm
    exact hnl ((List.take_sublist _ _).subset hm)
  rw [endOfLineOK, h1, h2]
  rfl

/-- The pattern tail cannot match while a closing quote is still
ahead: the quote is neither a newline nor whitespace. -/
lemma tailOK_false_before_close (q d : Char) (t2 : Chars) (hq : isQuoteChar q = true)
    (hnl : '\n' ∉ d :: t2) : tailOK (d :: (t2 ++ [q])) = false := by
  have hqws : isPyWS q = false := quote_not_ws q hq
  have hqnl : q ≠ '\n' := quote_ne_nl q hq
  have hnl2 : '\n' ∉ t2 ++ [q] := by
    intro hm
    rcases List.mem_append.mp hm with hm | hm
    · exact hnl (List.mem_cons_of_mem d hm)
    · simp at hm
      exact hqnl hm.symm
  have hnl3 : '\n' ∉ d :: (t2 ++ [q]) := by
    intro hm
    rcases List.mem_cons.mp hm with hm | hm
    · exact hnl (hm ▸ List.mem_cons_self d t2)
    · exact hnl2 hm
  have hex2 : (t2 ++ [q]).dropWhile isPyWS ≠ [] :=
    dropWhile_ne_of_mem_neg (by simp) hqws
  have hex3 : (d :: (t2 ++ [q])).dropWhile isPyWS ≠ [] :=
    dropWhile_ne_of_mem_neg (by simp) hqws
  simp only [tailOK]
  by_cases hd : isQuoteChar d = true
  · rw [if_pos hd, endOfLineOK_false _ hnl2 hex2, endOfLineOK_false _ hnl3 hex3]
    rfl
  · rw [if_neg hd]
    exact endOfLineOK_false _ hnl3 hex3

/-- The lazy group absorbs a quoted value up to its closing quote. -/
lemma tryContentGo_through (q : Char) (hq : isQuoteChar q = true) :
    ∀ (t acc : Chars), t ≠ [] → '\n' ∉ t →
      tryContentGo acc (t ++ [q]) = some (acc ++ t) := by
  intro t
  induction t with
  | nil => intro acc h _; exact absurd rfl h
  | cons c t ih =>
    intro acc _ hnl
    have hcnl : c ≠ '\n' := fun he => hnl (he ▸ List.mem_cons_self c t)
    rw [List.cons_append]
    simp only [tryContentGo]
    rw [if_neg hcnl]
    cases t with
    | nil =>
      have hclose : tailOK ([] ++ [q]) = true := by
        simp only [List.nil_append, tailOK]
        rw [if_pos hq]
        have : endOfLineOK [] = true := by decide
        rw [this]
        rfl
      rw [if_pos hclose]
    | cons d t' =>
      have hf := tailOK_false_before_close q d t' hq
        (fun hm => hnl (List.mem_cons_of_mem c hm))
      rw [if_neg (by simp [hf])]
      rw [ih (acc ++ [c]) (by simp) (fun hm => hnl (List.mem_cons_of_mem c hm))]
      simp

/-- The lazy group absorbs an unquoted value whose last character is
neither whitespace nor a quote. -/
lemma tryContentGo_unquoted :
    ∀ (t acc : Chars), t ≠ [] → '\n' ∉ t →
      (∀ c, t.getLast? = some c → isPyWS c = false ∧ isQuoteChar c = false) →
      tryContentGo acc t = some (acc ++ t) := by
  intro t
  induction t with
  | nil => intro acc h _ _; exact absurd rfl h
  | cons c t ih =>
    intro acc _ hnl hlast
    have hcnl : c ≠ '\n' := fun he => hnl (he ▸ List.mem_cons_self c t)
    simp only [tryContentGo]
    rw [if_neg hcnl]
    cases t with
    | nil =>
      have hclose : tailOK [] = true := by decide
      rw [if_pos hclose]
    | cons d t' =>
      have hlast2 : ∀ x, (d :: t').getLast? = some x →
          isPyWS x = false ∧ isQuoteChar x = false := by
        intro x hx
        apply hlast
        rw [List.getLast?_cons_cons]
        exact hx
      have hnl2 : '\n' ∉ d :: t' := fun hm => hnl (List.mem_cons_of_mem c hm)
      have hf : tailOK (d :: t') = false := by
        obtain ⟨e, he⟩ : ∃ e, (d :: t').getLast? = some e :=
          ⟨_, List.getLast?_eq_getLast_of_ne_nil (by simp)⟩
        have hel := hlast2 e he
        have hex : (d :: t').dropWhile isPyWS ≠ [] :=
          dropWhile_ne_of_mem_neg (getLast?_mem_chars he) hel.1
        simp only [tailOK]
        by_cases hd : isQuoteChar d = true
        · have h2 : endOfLineOK (d :: t') = false := endOfLineOK_false _ hnl2 hex
          have h1 : endOfLineOK t' = false := by
            cases t' with
            | nil =>
              exfalso
              have hdl := hlast2 d (by simp)
              rw [hdl.2] at hd
              cases hd
            | cons f t2 =>
              have hel2 : ∀ x, (f :: t2).getLast? = some x →
                  isPyWS x = false ∧ isQuoteChar x = false := by
                intro x hx
                apply hlast2
                rw [List.getLast?_cons_cons]
                exact hx
              obtain ⟨e2, he2⟩ : ∃ e2, (f :: t2).getLast? = some e2 :=
                ⟨_, List.getLast?_eq_getLast_of_ne_nil (by simp)⟩
              exact endOfLineOK_false _ (fun hm => hnl2 (List.mem_cons_of_mem d hm))
                (dropWhile_ne_of_mem_neg (getLast?_mem_chars he2) (hel2 e2 he2).1)
          rw [if_pos hd, h1, h2]
          rfl
        · rw [if_neg hd]
          exact endOfLineOK_false _ hnl2 hex
      rw [if_neg (by simp [hf])]
      rw [ih (acc ++ [c]) (by simp) hnl2 hlast2]
      simp

/-- Unfolding step of the greedy whitespace loop. -/
lemma titleWsLoop_succ (rest : Chars) (k : Nat) :
    titleWsLoop rest (k + 1) =
      match tryQuote1 (rest.drop (k + 1)) with
      | some t => some t
      | none => titleWsLoop rest k := rfl

/-- A `.strip()` of a value with non-whitespace ends is the identity. -/
lemma pyStrip_eq_self (t : Chars) (hne : t ≠ [])
    (hhead : ∀ c, t.head? = some c → isPyWS c = false)
    (hlast : ∀ c, t.getLast? = some c → isPyWS c = false) :
    pyStrip t = t := by
  obtain ⟨c0, t0, rfl⟩ : ∃ c0 t0, t = c0 :: t0 := by
    cases t with
    | nil => exact absurd rfl hne
    | cons a b => exact ⟨a, b, rfl⟩
  have h1 : (c0 :: t0).dropWhile isPyWS = c0 :: t0 := by
    simp [List.dropWhile_cons, hhead c0 rfl]
  obtain ⟨e, he⟩ : ∃ e, (c0 :: t0).getLast? = some e :=
    ⟨_, List.getLast?_eq_getLast_of_ne_nil (by simp)⟩
  have hrev : (c0 :: t0).reverse.head? = some e := by
    rw [List.head?_reverse]
    exact he
  obtain ⟨r0, rs, hr⟩ : ∃ r0 rs, (c0 :: t0).reverse = r0 :: rs := by
    cases hx : (c0 :: t0).reverse with
    | nil => rw [hx] at hrev; simp at hrev
    | cons a b => exact ⟨a, b, rfl⟩
  have hr0 : isPyWS r0 = false := by
    rw [hr] at hrev
    simp only [List.head?_cons, Option.some.injEq] at hrev
    rw [hrev]
    exact hlast e he
  calc pyStrip (c0 :: t0) = ((c0 :: t0).reverse.dropWhile isPyWS).reverse := by
        rw [pyStrip, h1]
    _ = ((r0 :: rs).dropWhile isPyWS).reverse := by rw [hr]
    _ = (r0 :: rs).reverse := by simp [List.dropWhile_cons, hr0]
    _ = c0 :: t0 := by rw [← hr, List.reverse_reverse]

/-- A `title:` line with a (matching or not) quoted value yields the
value between the quotes, stripped. -/
lemma titleSearch_quoted (q : Char) (t : Chars) (hq : isQuoteChar q = true)
    (hne : t ≠ []) (hnl : '\n' ∉ t) :
    titleSearch ("title: ".data ++ q :: (t ++ [q])) = some (pyStrip t) := by
  have hqws : isPyWS q = false := quote_not_ws q hq
  have hmt : matchTitleAt ("title: ".data ++ q :: (t ++ [q])) = some t := by
    have hshape : "title: ".data ++ q :: (t ++ [q]) =
        't' :: 'i' :: 't' :: 'l' :: 'e' :: ':' :: ' ' :: q :: (t ++ [q]) := rfl
    rw [hshape]
    simp only [matchTitleAt]
    rw [if_pos (show ('t' :: 'i' :: 't' :: 'l' :: 'e' :: ':' :: ' ' :: q :: (t ++ [q]) :
      Chars).take 6 = "title:".data from rfl)]
    have hdrop6 : ('t' :: 'i' :: 't' :: 'l' :: 'e' :: ':' :: ' ' :: q :: (t ++ [q]) :
        Chars).drop 6 = ' ' :: q :: (t ++ [q]) := rfl
    rw [hdrop6]
    have hws1 : wsRunLen (' ' :: q :: (t ++ [q])) = 1 := by
      have hsp : isPyWS ' ' = true := by decide
      simp [wsRunLen, List.takeWhile_cons, hsp, hqws]
    rw [hws1, show (1 : Nat) = 0 + 1 from rfl, titleWsLoop_succ]
    have hdrop1 : (' ' :: q :: (t ++ [q]) : Chars).drop (0 + 1) = q :: (t ++ [q]) := rfl
    rw [hdrop1]
    have htq : tryQuote1 (q :: (t ++ [q])) = some t := by
      simp only [tryQuote1]
      rw [if_pos hq]
      rw [tryContentGo_through q hq t [] hne hnl]
      simp
    rw [htq]
  simp only [titleSearch, firstTitle]
  rw [hmt]

/-- A `title:` line with an unquoted value whose first and last
characters are neither whitespace nor quotes yields the value
itself. -/
lemma titleSearch_unquoted (t : Chars) (hne : t ≠ []) (hnl : '\n' ∉ t)
    (hhead : ∀ c, t.head? = some c → isPyWS c = false ∧ isQuoteChar c = false)
    (hlast : ∀ c, t.getLast? = some c → isPyWS c = false ∧ isQuoteChar c = false) :
    titleSearch ("title: ".data ++ t) = some t := by
  obtain ⟨c0, t0, rfl⟩ : ∃ c0 t0, t = c0 :: t0 := by
    cases t with
    | nil => exact absurd rfl hne
    | cons a b => exact ⟨a, b, rfl⟩
  have hc0 := hhead c0 rfl
  have hmt : matchTitleAt ("title: ".data ++ c0 :: t0) = some (c0 :: t0) := by
    have hshape : "title: ".data ++ c0 :: t0 =
        't' :: 'i' :: 't' :: 'l' :: 'e' :: ':' :: ' ' :: c0 :: t0 := rfl
    rw [hshape]
    simp only [matchTitleAt]
    rw [if_pos (show ('t' :: 'i' :: 't' :: 'l' :: 'e' :: ':' :: ' ' :: c0 :: t0 :
      Chars).take 6 = "title:".data from rfl)]
    have hdrop6 : ('t' :: 'i' :: 't' :: 'l' :: 'e' :: ':' :: ' ' :: c0 :: t0 :
        Chars).drop 6 = ' ' :: c0 :: t0 := rfl
    rw [hdrop6]
    have hws1 : wsRunLen (' ' :: c0 :: t0) = 1 := by
      have hsp : isPyWS ' ' = true := by decide
      simp [wsRunLen, List.takeWhile_cons, hsp, hc0.1]
    rw [hws1, show (1 : Nat) = 0 + 1 from rfl, titleWsLoop_succ]
    have hdrop1 : (' ' :: c0 :: t0 : Chars).drop (0 + 1) = c0 :: t0 := rfl
    rw [hdrop1]
    have htq : tryQuote1 (c0 :: t0) = some (c0 :: t0) := by
      simp only [tryQuote1]
      rw [if_neg (by simp [hc0.2])]
      rw [tryContentGo_unquoted (c0 :: t0) [] (by simp) hnl hlast]
      simp
    rw [htq]
  simp only [titleSearch, firstTitle]
  rw [hmt]
  show some (pyStrip (c0 :: t0)) = some (c0 :: t0)
  rw [pyStrip_eq_self (c0 :: t0) (by simp) (fun c hc => (hhead c hc).1)
    (fun c hc => (hlast c hc).1)]

/-- C5: frontmatter extraction and title selection: the spec's
normative input yields title `Hello World` with the block and both
delimiter lines removed; every well-formed frontmatter block — any
number of content lines, under the regex-imposed provisos that the
first line is not all-whitespace and no further line opens like the
closing `---` — is removed together with both delimiter lines, the
title being searched in the block alone; a `title:` line quoted with
either quote character yields the value between the quotes (stripped),
an unquoted `title:` line yields its value, and the two compose; when
extraction yields no title (or an empty one, falsy in Python) the
fallback is used; when it yields a non-empty title that title is used;
and a text not opening with `---` is returned untouched with no
title. -/
theorem frontmatter_title_extraction :
    extract_frontmatter
        ("---\ntitle: ".data ++ [Char.ofNat 34] ++ "Hello World".data ++ [Char.ofNat 34] ++
          "\n---\nBody text".data) =
      ("Body text".data, some "Hello World".data) ∧
    (∀ (l0 : Chars) (ls : List Chars) (body : Chars),
      l0.dropWhile isPyWS ≠ [] → '\n' ∉ l0 →
      (∀ L ∈ ls, '\n' ∉ L ∧ L.take 3 ≠ ['-', '-', '-']) →
      '\n' ∉ body.takeWhile isPyWS →
      extract_frontmatter (['-', '-', '-', '\n'] ++ joinLines (l0 :: ls) ++
          '\n' :: '-' :: '-' :: '-' :: '\n' :: body) =
        (body, titleSearch (joinLines (l0 :: ls)))) ∧
    (∀ (q : Char) (t : Chars), isQuoteChar q = true → t ≠ [] → '\n' ∉ t →
      titleSearch ("title: ".data ++ q :: (t ++ [q])) = some (pyStrip t)) ∧
    (∀ t : Chars, t ≠ [] → '\n' ∉ t →
      (∀ c, t.head? = some c → isPyWS c = false ∧ isQuoteChar c = false) →
      (∀ c, t.getLast? = some c → isPyWS c = false ∧ isQuoteChar c = false) →
      titleSearch ("title: ".data ++ t) = some t) ∧
    (∀ (q : Char) (t body : Chars), isQuoteChar q = true → t ≠ [] → '\n' ∉ t →
      '\n' ∉ body.takeWhile isPyWS →
      extract_frontmatter (['-', '-', '-', '\n'] ++
          ("title: ".data ++ q :: (t ++ [q])) ++
          '\n' :: '-' :: '-' :: '-' :: '\n' :: body) =
        (body, some (pyStrip t))) ∧
    (∀ (g : Chars → Chars) (md fb : Chars), (extract_frontmatter md).2 = none →
      (convert_markdown g md fb).2 = fb) ∧
    (∀ (g : Chars → Chars) (md fb t : Chars), (extract_frontmatter md).2 = some t → t ≠ [] →
      (convert_markdown g md fb).2 = t) ∧
    (∀ md : Chars, md.take 3 ≠ ['-', '-', '-'] → extract_frontmatter md = (md, none)) := by
  refine ⟨by decide, extract_frontmatter_lines, titleSearch_quoted, titleSearch_unquoted,
    ?_, ?_, ?_, ?_⟩
  · intro q t body hq hne hnl hbody
    have hqnl : q ≠ '\n' := quote_ne_nl q hq
    have hfm_nl : '\n' ∉ ("title: ".data ++ q :: (t ++ [q])) := by
      intro hm
      rcases List.mem_append.mp hm with hm | hm
      · exact absurd hm (by decide)
      · rcases List.mem_cons.mp hm with hm | hm
        · exact hqnl hm.symm
        · rcases List.mem_append.mp hm with hm | hm
          · exact hnl hm
          · simp at hm
            exact hqnl hm.symm
    have hdrop0 : ("title: ".data ++ q :: (t ++ [q])).dropWhile isPyWS ≠ [] := by
      rw [show "title: ".data ++ q :: (t ++ [q]) =
        't' :: ("itle: ".data ++ q :: (t ++ [q])) from rfl]
      rw [List.dropWhile_cons, if_neg (by decide)]
      simp
    have hj : joinLines [("title: ".data ++ q :: (t ++ [q]))] =
        "title: ".data ++ q :: (t ++ [q]) := by
      simp [joinLines, joinTail]
    have hres := extract_frontmatter_lines ("title: ".data ++ q :: (t ++ [q])) [] body
      hdrop0 hfm_nl (by simp) hbody
    rw [hj] at hres
    rw [hres, titleSearch_quoted q t hq hne hnl]
  · intro g md fb h
    simp [convert_markdown, h]
  · intro g md fb t h ht
    simp [convert_markdown, h, ht]
  · intro md h
    simp [extract_frontmatter, frontmatterMatch, h]

theorem frontmatter_title_extraction_witness :
    (extract_frontmatter "plain body".data).2 = none ∧
    (convert_markdown id "plain body".data "my-page".data).2 = "my-page".data ∧
    extract_frontmatter (['-', '-', '-', '\n'] ++
        joinLines ["title: T".data, "author: A".data] ++
        '\n' :: '-' :: '-' :: '-' :: '\n' :: "B".data) =
      ("B".data, titleSearch (joinLines ["title: T".data, "author: A".data])) ∧
    titleSearch ("title: ".data ++ Char.ofNat 39 :: ("Hello World".data ++ [Char.ofNat 39])) =
      some (pyStrip "Hello World".data) ∧
    titleSearch ("title: ".data ++ "my title".data) = some "my title".data ∧
    extract_frontmatter (['-', '-', '-', '\n'] ++
        ("title: ".data ++ Char.ofNat 34 :: ("Hello World".data ++ [Char.ofNat 34])) ++
        '\n' :: '-' :: '-' :: '-' :: '\n' :: "Body text".data) =
      ("Body text".data, some (pyStrip "Hello World".data)) :=
  ⟨by decide,
    (frontmatter_title_extraction).2.2.2.2.2.1 id "plain body".data "my-page".data (by decide),
    (frontmatter_title_extraction).2.1 "title: T".data ["author: A".data] "B".data
      (by decide) (by decide) (by decide) (by decide),
    (frontmatter_title_extraction).2.2.1 (Char.ofNat 39) "Hello World".data (by decide)
      (by decide) (by decide),
    (frontmatter_title_extraction).2.2.2.1 "my title".data (by decide) (by decide)
      (by
        intro c hc
        rw [show (("my title".data : Chars)).head? = some 'm' from rfl,
          Option.some.injEq] at hc
        rw [← hc]
        decide)
      (by
        intro c hc
        rw [show (("my title".data : Chars)).getLast? = some 'e' from rfl,
          Option.some.injEq] at hc
        rw [← hc]
        decide),
    (frontmatter_title_extraction).2.2.2.2.1 (Char.ofNat 34) "Hello World".data
      "Body text".data (by decide) (by decide) (by decide) (by decide)⟩

/-- C10: the optional quotes of the title pattern strip at most one
leading and one trailing quote character even when unmatched: the line
`title: "Hello` (one unmatched double quote) yields title `Hello`, and
`title: 'Hello"` (mismatched quote kinds) also yields `Hello`. -/
theorem frontmatter_title_unmatched_quote_stripping :
    extract_frontmatter
        ("---\ntitle: ".data ++ [Char.ofNat 34] ++ "Hello\n---\nx".data) =
      ("x".data, some "Hello".data) ∧
    extract_frontmatter
        ("---\ntitle: ".data ++ [Char.ofNat 39] ++ "Hello".data ++ [Char.ofNat 34] ++
          "\n---\nx".data) =
      ("x".data, some "Hello".data) := by
  decide

end MdToPages
